import Mathlib

/-!
Verification of the XPaxos replication core (src/xpaxos/xpaxos.go of
csanti/cos518_project).

Modelling choices, stated once here and relied on by the doc comments
below:

* Go integers are modelled as `Nat`: every integer that appears in the
  statements proved here (ids, view numbers, sequence numbers, lengths)
  starts at zero and is only ever incremented in the source.
* The SHA-256 digest of the JSON serialization of a client request
  (func digest) is modelled symbolically by the injective constructor
  `digest`: two requests have the same digest iff they are equal, the
  standard collision-free idealization of a cryptographic hash.
* RSA-PKCS1v15 signatures are modelled symbolically: a private key is a
  number, its public counterpart is the same number, a signature records
  the signing key and the signed digest, and verification succeeds iff
  the signature was produced with the key that the directory stores for
  the claimed server.  `verifyK` returns `none` when the directory has
  no entry for the claimed server: in the Go source the map access
  xp.publicKeys[server] then yields nil, and rsa.VerifyPKCS1v15
  dereferences the nil key (pub.Size reads pub.N), a runtime fault
  rather than an error return.  Everywhere else it returns
  `some true` / `some false` exactly as the Go function returns
  true / false.
* Go maps (map[int]Message for certificates, map[int]*rsa.PublicKey for
  the key directory) are modelled as association lists with first-match
  lookup and replace-or-append insertion; len of a map is the length of
  the list (lists built by `mapInsert` never hold a key twice).
* A handler invocation that can fault (nil dereference, index out of
  range) or that can never reply is modelled as returning `none`;
  `some (state, reply)` is a completed invocation.  The fan-out RPCs and
  the acknowledgement waits in Replicate and Prepare read and write no
  local replica state, so the atomic handler functions model them as
  completing; the certificate barrier of Prepare and the second halves
  of Replicate and Prepare are additionally modelled exactly, as guarded
  small steps of the transition system `Step`, which is what the
  reachability claims quantify over.
* The transport endpoints (replicas, labrpc), the per-replica mutex and
  the persister stub (persist gob-encodes the literal 0 and readPersist
  decodes into a discarded value, so neither affects replica state) are
  not part of the replica state modelled here.
-/

def REPLICATE : Nat := 0

def PREPARE : Nat := 1

def COMMIT : Nat := 2

def REPLY : Nat := 3

/-- Modelled from the spec: replica index 0 is reserved for the client
driver (constant CLIENT lives in a file of the repository that is not
under src/). -/
def CLIENT : Nat := 0

/-- Modelled from the spec: a client request is opaque to the core and
carries an application payload (kept abstract as a number) and a
per-client timestamp; the handlers read only its Timestamp field. -/
structure ClientRequest where
  Operation : Nat
  Timestamp : Nat
deriving DecidableEq, Repr

/-- A 32-byte SHA-256 digest, modelled symbolically as the digested
request itself (collision-free idealization). -/
structure Digest where
  ofRequest : ClientRequest
deriving DecidableEq, Repr

/-- func digest: SHA-256 over the canonical (JSON) serialization of the
request, modelled as the injective symbolic constructor of `Digest`. -/
def digest (msg : ClientRequest) : Digest := ⟨msg⟩

/-- An RSA-PKCS1v15 signature, modelled symbolically as the pair of the
signing private key and the signed digest. -/
structure Sig where
  signerKey : Nat
  signedDigest : Digest
deriving DecidableEq, Repr

/-- rsa.SignPKCS1v15 with a given private key (PKCS1v15 signatures are
deterministic). -/
def signWith (privateKey : Nat) (msgDigest : Digest) : Sig :=
  { signerKey := privateKey, signedDigest := msgDigest }

/-- struct Message of the source, field for field; MsgType carries one of
the REPLICATE/PREPARE/COMMIT/REPLY constants. -/
structure Message where
  MsgType : Nat
  MsgDigest : Digest
  Signature : Sig
  PrepareSeqNum : Nat
  View : Nat
  ClientTimestamp : Nat
  ServerId : Nat
deriving DecidableEq, Repr

/-- struct PrepareLogEntry of the source. -/
structure PrepareLogEntry where
  Request : ClientRequest
  Msg0 : Message
deriving DecidableEq, Repr

/-- struct CommitLogEntry of the source; the Go certificate map
map[int]Message is modelled as an association list. -/
structure CommitLogEntry where
  Request : ClientRequest
  Msg0 : List (Nat × Message)
deriving DecidableEq, Repr

/-- First-match lookup in an association list: the model of a Go map
read m[k]. -/
def mapLookup {α : Type} (m : List (Nat × α)) (k : Nat) : Option α :=
  match m with
  | [] => none
  | p :: rest => if p.1 = k then some p.2 else mapLookup rest k

/-- Replace-or-append insertion in an association list: the model of a Go
map write m[k] = v. -/
def mapInsert {α : Type} (m : List (Nat × α)) (k : Nat) (v : α) : List (Nat × α) :=
  if (mapLookup m k).isSome then
    m.map (fun p => if p.1 = k then (k, v) else p)
  else
    m ++ [(k, v)]

/-- In-place update of the i-th element of a list, the model of the Go
slice write l[i] = f(l[i]); out-of-range indices leave the list
unchanged (the one place the source indexes a slice it first checks the
bound, see Commit). -/
def listModify {α : Type} (l : List α) (i : Nat) (f : α → α) : List α :=
  match l, i with
  | [], _ => []
  | a :: rest, 0 => f a :: rest
  | a :: rest, Nat.succ j => a :: listModify rest j f

/-- struct XPaxos of the source, minus the mutex, the transport endpoints
and the persister (see the header comment). -/
structure XPaxos where
  synchronousGroup : List Nat
  id : Nat
  view : Nat
  prepareSeqNum : Nat
  executeSeqNum : Nat
  prepareLog : List PrepareLogEntry
  commitLog : List CommitLogEntry
  privateKey : Nat
  publicKeys : List (Nat × Nat)
deriving DecidableEq, Repr

/-- func (xp *XPaxos) sign: signature over a digest with the replica's
own private key. -/
def XPaxos.sign (xp : XPaxos) (msgDigest : Digest) : Sig :=
  signWith xp.privateKey msgDigest

/-- func (xp *XPaxos) verify, as a function of the public-key directory:
looks up the claimed server's public key and checks the signature
against it; `none` models the nil-key dereference fault on a missing
directory entry (see the header comment). -/
def verifyK (publicKeys : List (Nat × Nat)) (server : Nat) (msgDigest : Digest)
    (signature : Sig) : Option Bool :=
  match mapLookup publicKeys server with
  | none => none
  | some pk => some (decide (signature.signerKey = pk ∧ signature.signedDigest = msgDigest))

/-- func (xp *XPaxos) verify of the source. -/
def XPaxos.verify (xp : XPaxos) (server : Nat) (msgDigest : Digest)
    (signature : Sig) : Option Bool :=
  verifyK xp.publicKeys server msgDigest signature

/-- func Make of the source: view starts at 1, sequence numbers at 0,
logs empty, and the synchronous group holds every replica index except
CLIENT; the replicas slice is abstracted to its length. -/
def Make (numReplicas : Nat) (id : Nat) (privateKey : Nat)
    (publicKeys : List (Nat × Nat)) : XPaxos :=
  { synchronousGroup := (List.range numReplicas).filter (fun server => server != CLIENT)
    id := id
    view := 1
    prepareSeqNum := 0
    executeSeqNum := 0
    prepareLog := []
    commitLog := []
    privateKey := privateKey
    publicKeys := publicKeys }

/-- Modelled from the spec: the reply of the Replicate RPC, a record
with fields isLeader and success (its declaration lives in a repository
file not under src/; the Replicate handler in src/ sets exactly these
two fields). -/
structure ReplicateReply where
  IsLeader : Bool
  Success : Bool
deriving DecidableEq, Repr

/-- The PREPARE message the leader builds inside Replicate: digest and
self-signature over the request, the incremented prepare sequence
number, the current view, the client timestamp and the leader's own
id. -/
def prepareMsg (xp : XPaxos) (request : ClientRequest) : Message :=
  { MsgType := PREPARE
    MsgDigest := digest request
    Signature := xp.sign (digest request)
    PrepareSeqNum := xp.prepareSeqNum + 1
    View := xp.view
    ClientTimestamp := request.Timestamp
    ServerId := xp.id }

/-- The first mutex-protected section of func (xp *XPaxos) Replicate in
the leader case: increment prepareSeqNum, build the signed PREPARE
message, append the prepare-log entry, and append a commit-log entry
whose certificate is seeded with the leader's own message. -/
def replicateBody (xp : XPaxos) (request : ClientRequest) : XPaxos :=
  { xp with
    prepareSeqNum := xp.prepareSeqNum + 1
    prepareLog := xp.prepareLog ++ [{ Request := request, Msg0 := prepareMsg xp request }]
    commitLog := xp.commitLog ++
      [{ Request := request, Msg0 := mapInsert [] xp.id (prepareMsg xp request) }] }

/-- func (xp *XPaxos) Replicate as one atomic invocation: on the leader
it runs `replicateBody`, then the fan-out and acknowledgement wait
(which touch no local state and are modelled as completing; the guarded
small-step version is `Step.replicateDone`), then increments
executeSeqNum and replies success; on a non-leader it replies
isLeader = false, success = false and changes nothing. -/
def Replicate (xp : XPaxos) (request : ClientRequest) : XPaxos × ReplicateReply :=
  if xp.id = xp.view then
    let xp1 := replicateBody xp request
    ({ xp1 with executeSeqNum := xp1.executeSeqNum + 1 },
     { IsLeader := true, Success := true })
  else
    (xp, { IsLeader := false, Success := false })

/-- struct PrepareReply of the source. -/
structure PrepareReply where
  MsgDigest : Digest
  Signature : Sig
  Success : Bool
deriving DecidableEq, Repr

/-- The acceptance predicate of func (xp *XPaxos) Prepare: next-in-
sequence prepare number, digest matching the follower's own hashing of
the request, and a leader signature that verifies under the claimed
sender's public key. -/
def prepareAccepts (xp : XPaxos) (prepareEntry : PrepareLogEntry) : Prop :=
  prepareEntry.Msg0.PrepareSeqNum = xp.prepareSeqNum + 1 ∧
  prepareEntry.Msg0.MsgDigest = digest prepareEntry.Request ∧
  xp.verify prepareEntry.Msg0.ServerId (digest prepareEntry.Request)
    prepareEntry.Msg0.Signature = some true

instance (xp : XPaxos) (prepareEntry : PrepareLogEntry) :
    Decidable (prepareAccepts xp prepareEntry) := by
  unfold prepareAccepts
  infer_instance

/-- The COMMIT message a follower builds inside Prepare: digest and
self-signature over the request, the incremented prepare sequence
number, the current view, the client timestamp and the follower's own
id. -/
def commitMsg (xp : XPaxos) (prepareEntry : PrepareLogEntry) : Message :=
  { MsgType := COMMIT
    MsgDigest := digest prepareEntry.Request
    Signature := xp.sign (digest prepareEntry.Request)
    PrepareSeqNum := xp.prepareSeqNum + 1
    View := xp.view
    ClientTimestamp := prepareEntry.Request.Timestamp
    ServerId := xp.id }

/-- The accepted-case mutations of func (xp *XPaxos) Prepare before the
fan-out: increment prepareSeqNum, append the prepare-log entry, build
the signed COMMIT message, and, when executeSeqNum is at or past the end
of commitLog, append a commit-log entry whose certificate is seeded with
the leader's prepare message (under key view) and the follower's own
commit message (under key id). -/
def prepareBody (xp : XPaxos) (prepareEntry : PrepareLogEntry) : XPaxos :=
  { xp with
    prepareSeqNum := xp.prepareSeqNum + 1
    prepareLog := xp.prepareLog ++ [prepareEntry]
    commitLog :=
      if xp.commitLog.length ≤ xp.executeSeqNum then
        xp.commitLog ++
          [{ Request := prepareEntry.Request
             Msg0 := mapInsert (mapInsert [] xp.view prepareEntry.Msg0) xp.id
               (commitMsg xp prepareEntry) }]
      else
        xp.commitLog }

/-- func (xp *XPaxos) Prepare as one atomic invocation.  The reply
always carries the follower's own digest of the request and its own
signature over that digest.  On rejection (one of the three acceptance
conditions fails) the state is unchanged and success = false.  On
acceptance it runs `prepareBody`, then the fan-out, acknowledgement wait
and certificate barrier; the barrier first indexes
commitLog[executeSeqNum], so if executeSeqNum is still out of range the
invocation faults (`none`); otherwise the barrier and the waits touch no
local state and are modelled as completing (the guarded small-step
version is `Step.prepareDone`), after which executeSeqNum is incremented
and the reply carries success = true.  `none` also models the fault when
the leader-signature check dereferences a missing directory entry. -/
def Prepare (xp : XPaxos) (prepareEntry : PrepareLogEntry) :
    Option (XPaxos × PrepareReply) :=
  let msgDigest := digest prepareEntry.Request
  let signature := xp.sign msgDigest
  if prepareEntry.Msg0.PrepareSeqNum = xp.prepareSeqNum + 1 ∧
      prepareEntry.Msg0.MsgDigest = msgDigest then
    match xp.verify prepareEntry.Msg0.ServerId msgDigest prepareEntry.Msg0.Signature with
    | none => none
    | some false =>
        some (xp, { MsgDigest := msgDigest, Signature := signature, Success := false })
    | some true =>
        let xp1 := prepareBody xp prepareEntry
        if xp1.executeSeqNum < xp1.commitLog.length then
          some ({ xp1 with executeSeqNum := xp1.executeSeqNum + 1 },
                { MsgDigest := msgDigest, Signature := signature, Success := true })
        else
          none
  else
    some (xp, { MsgDigest := msgDigest, Signature := signature, Success := false })

/-- struct CommitReply of the source. -/
structure CommitReply where
  MsgDigest : Digest
  Signature : Sig
  Success : Bool
deriving DecidableEq, Repr

/-- The certificate write of the Commit handler: store the message in
the certificate under key msg.ServerId. -/
def certInsert (msg : Message) (entry : CommitLogEntry) : CommitLogEntry :=
  { entry with Msg0 := mapInsert entry.Msg0 msg.ServerId msg }

/-- func (xp *XPaxos) Commit: the reply always carries the incoming
digest and the replica's own signature over it; if the message signature
verifies and executeSeqNum < len(commitLog), the message is written into
the certificate of the slot at index executeSeqNum under key
msg.ServerId and success = true; if it verifies but the slot is not yet
materialized, success = false (Go's zero value, set explicitly in the
else branch); if verification returns false, success stays false and the
state is unchanged; `none` models the fault when verification
dereferences a missing directory entry. -/
def Commit (xp : XPaxos) (msg : Message) : Option (XPaxos × CommitReply) :=
  let msgDigest := msg.MsgDigest
  let signature := xp.sign msgDigest
  match xp.verify msg.ServerId msgDigest msg.Signature with
  | none => none
  | some true =>
      if xp.executeSeqNum < xp.commitLog.length then
        some ({ xp with
                commitLog := listModify xp.commitLog xp.executeSeqNum (certInsert msg) },
              { MsgDigest := msgDigest, Signature := signature, Success := true })
      else
        some (xp, { MsgDigest := msgDigest, Signature := signature, Success := false })
  | some false =>
      some (xp, { MsgDigest := msgDigest, Signature := signature, Success := false })

/-- A replica together with the number of Replicate and Prepare handler
invocations that have run their first mutex-protected section and are
still blocked (in the acknowledgement wait, resp. the certificate
barrier) before their executeSeqNum increment. -/
structure Node where
  xp : XPaxos
  pendingRep : Nat
  pendingPrep : Nat

/-- One atomic mutex-protected section of a handler invocation, exactly
as the source interleaves them: the body of a leader Replicate; the
completion of a pending Replicate (the acknowledgement wait depends only
on received replies, never on local state, so it may complete at any
time); the body of an accepted Prepare; the completion of a pending
Prepare, guarded by the source's barrier condition that the certificate
of the slot at executeSeqNum has one entry per synchronous-group member;
and a completed Commit invocation.  Rejected invocations change no
state and therefore add no transition. -/
inductive Step : Node → Node → Prop
  | replicate (n : Node) (request : ClientRequest) (h : n.xp.id = n.xp.view) :
      Step n ⟨replicateBody n.xp request, n.pendingRep + 1, n.pendingPrep⟩
  | replicateDone (n : Node) (h : 0 < n.pendingRep) :
      Step n ⟨{ n.xp with executeSeqNum := n.xp.executeSeqNum + 1 },
              n.pendingRep - 1, n.pendingPrep⟩
  | prepare (n : Node) (prepareEntry : PrepareLogEntry)
      (h : prepareAccepts n.xp prepareEntry) :
      Step n ⟨prepareBody n.xp prepareEntry, n.pendingRep, n.pendingPrep + 1⟩
  | prepareDone (n : Node) (slot : CommitLogEntry) (h : 0 < n.pendingPrep)
      (hslot : n.xp.commitLog.get? n.xp.executeSeqNum = some slot)
      (hbarrier : slot.Msg0.length = n.xp.synchronousGroup.length) :
      Step n ⟨{ n.xp with executeSeqNum := n.xp.executeSeqNum + 1 },
              n.pendingRep, n.pendingPrep - 1⟩
  | commit (n : Node) (msg : Message) (xp' : XPaxos) (reply : CommitReply)
      (h : Commit n.xp msg = some (xp', reply)) :
      Step n ⟨xp', n.pendingRep, n.pendingPrep⟩

/-- Replica states reachable from a freshly constructed replica by any
interleaving of handler invocations. -/
inductive Reachable : Node → Prop
  | init (numReplicas id privateKey : Nat) (publicKeys : List (Nat × Nat)) :
      Reachable ⟨Make numReplicas id privateKey publicKeys, 0, 0⟩
  | step {n n' : Node} (h : Reachable n) (hs : Step n n') : Reachable n'

/-- The dense-numbering invariant of the prepare log: prepareSeqNum
equals the log length and the entry at index k carries prepare sequence
number k + 1. -/
def dense (xp : XPaxos) : Prop :=
  xp.prepareSeqNum = xp.prepareLog.length ∧
  ∀ k entry, xp.prepareLog.get? k = some entry → entry.Msg0.PrepareSeqNum = k + 1

/-- The certificate invariant asserted by claim C1: below executeSeqNum
every commit-log slot has a certificate entry for every member of the
synchronous group, and every stored entry verifies under its own
ServerId's directory key. -/
def certComplete (xp : XPaxos) : Prop :=
  ∀ i entry, i < xp.executeSeqNum → xp.commitLog.get? i = some entry →
    (∀ server, server ∈ xp.synchronousGroup → (mapLookup entry.Msg0 server).isSome = true) ∧
    (∀ p : Nat × Message, p ∈ entry.Msg0 →
      verifyK xp.publicKeys p.2.ServerId p.2.MsgDigest p.2.Signature = some true)

/-- The part of the certificate invariant the code does maintain: every
entry stored in any commit-log certificate verifies under its own
ServerId's directory key. -/
def certSigsValid (xp : XPaxos) : Prop :=
  ∀ entry, entry ∈ xp.commitLog →
    ∀ p : Nat × Message, p ∈ entry.Msg0 →
      verifyK xp.publicKeys p.2.ServerId p.2.MsgDigest p.2.Signature = some true

/-- A three-replica-plus-client public-key directory used by the
concrete instances below: replica i holds private key i + 4. -/
def pksW : List (Nat × Nat) := [(1, 5), (2, 6), (3, 7)]

/-- A concrete client request used by the concrete instances below. -/
def reqW : ClientRequest := { Operation := 9, Timestamp := 4 }

/-- A freshly made leader node (replica 1, the initial view-1 leader,
out of four replica slots with slot 0 the client). -/
def nodeA0 : Node := { xp := Make 4 1 5 pksW, pendingRep := 0, pendingPrep := 0 }

/-- The leader node after the first mutex-protected section of one
Replicate invocation. -/
def nodeA1 : Node := { xp := replicateBody nodeA0.xp reqW, pendingRep := 1, pendingPrep := 0 }

/-- The leader node after that Replicate invocation finished its
acknowledgement wait and incremented executeSeqNum. -/
def nodeA2 : Node :=
  { xp := { nodeA1.xp with executeSeqNum := nodeA1.xp.executeSeqNum + 1 },
    pendingRep := 0, pendingPrep := 0 }

/-- The single commit-log slot of nodeA2: only the leader's own PREPARE
message is in the certificate. -/
def slotA : CommitLogEntry :=
  { Request := reqW, Msg0 := [(1, prepareMsg (Make 4 1 5 pksW) reqW)] }

/-- A concrete follower replica (id 2) with empty logs. -/
def xpW2 : XPaxos :=
  { synchronousGroup := [1, 2, 3], id := 2, view := 1, prepareSeqNum := 0,
    executeSeqNum := 0, prepareLog := [], commitLog := [], privateKey := 6,
    publicKeys := pksW }

/-- The prepare-log entry replica 1 (the leader) would send for reqW. -/
def peW2 : PrepareLogEntry :=
  { Request := reqW, Msg0 := prepareMsg (Make 4 1 5 pksW) reqW }

/-- The state of xpW2 after accepting peW2. -/
def xpW2a : XPaxos :=
  { xpW2 with
    prepareSeqNum := 1
    executeSeqNum := 1
    prepareLog := [peW2]
    commitLog := [{ Request := reqW, Msg0 := [(1, peW2.Msg0), (2, commitMsg xpW2 peW2)] }] }

/-- The reply xpW2 sends for peW2. -/
def replyW2 : PrepareReply :=
  { MsgDigest := digest reqW, Signature := signWith 6 (digest reqW), Success := true }

/-- A valid COMMIT message from replica 1 about reqW. -/
def msgC : Message :=
  { MsgType := COMMIT, MsgDigest := digest reqW, Signature := signWith 5 (digest reqW),
    PrepareSeqNum := 1, View := 1, ClientTimestamp := 4, ServerId := 1 }

/-- A concrete replica (id 2) holding one commit-log slot with an empty
certificate at its execution frontier. -/
def xpC : XPaxos :=
  { synchronousGroup := [1, 2, 3], id := 2, view := 1, prepareSeqNum := 1,
    executeSeqNum := 0, prepareLog := [], commitLog := [{ Request := reqW, Msg0 := [] }],
    privateKey := 6, publicKeys := pksW }

/-- xpC after the Commit handler stored msgC. -/
def xpCa : XPaxos :=
  { xpC with commitLog := [{ Request := reqW, Msg0 := [(1, msgC)] }] }

/-- The reply xpC sends for msgC. -/
def replyC : CommitReply :=
  { MsgDigest := digest reqW, Signature := signWith 6 (digest reqW), Success := true }

/-- A freshly made node with an empty public-key directory. -/
def nodeB : Node := { xp := Make 3 1 9 [], pendingRep := 0, pendingPrep := 0 }

/-- A replica whose public-key directory has an entry for itself only. -/
def xpC9 : XPaxos :=
  { synchronousGroup := [1, 2], id := 1, view := 1, prepareSeqNum := 0, executeSeqNum := 0,
    prepareLog := [], commitLog := [], privateKey := 5, publicKeys := [(1, 5)] }

/-- Lookup in the empty list model of a Go slice is out of range. -/
theorem get?_nil_eq {α : Type} (k : Nat) : ([] : List α).get? k = none := by
  cases k <;> rfl

/-- Indexing into a list extended on the right. -/
theorem get?_snoc {α : Type} (l : List α) (a : α) (k : Nat) :
    (l ++ [a]).get? k = if k = l.length then some a else l.get? k := by
  induction l generalizing k with
  | nil =>
    cases k with
    | zero => rfl
    | succ j => simp [List.get?, get?_nil_eq]
  | cons b rest ih =>
    cases k with
    | zero => simp [List.get?]
    | succ j => simpa [List.get?] using ih j

/-- The slice write model preserves length. -/
theorem listModify_length {α : Type} (l : List α) (i : Nat) (f : α → α) :
    (listModify l i f).length = l.length := by
  induction l generalizing i with
  | nil => rfl
  | cons a rest ih =>
    cases i with
    | zero => rfl
    | succ j => simpa [listModify] using ih j

/-- The slice write model rewrites the targeted index. -/
theorem listModify_get?_self {α : Type} (l : List α) (i : Nat) (f : α → α) :
    (listModify l i f).get? i = (l.get? i).map f := by
  induction l generalizing i with
  | nil => simp [listModify, get?_nil_eq]
  | cons a rest ih =>
    cases i with
    | zero => rfl
    | succ j => simpa [listModify, List.get?] using ih j

/-- The slice write model leaves every other index unchanged. -/
theorem listModify_get?_other {α : Type} (l : List α) (i j : Nat) (f : α → α)
    (h : j ≠ i) : (listModify l i f).get? j = l.get? j := by
  induction l generalizing i j with
  | nil => simp [listModify]
  | cons a rest ih =>
    cases i with
    | zero =>
      cases j with
      | zero => exact absurd rfl h
      | succ j' => rfl
    | succ i' =>
      cases j with
      | zero => rfl
      | succ j' => simpa [listModify, List.get?] using ih i' j' (fun hc => h (by simp [hc]))

/-- Every element of the rewritten list is an old element or the image of
the old element at the targeted index. -/
theorem mem_listModify {α : Type} {l : List α} {i : Nat} {f : α → α} {a : α}
    (h : a ∈ listModify l i f) : a ∈ l ∨ ∃ b, b ∈ l ∧ a = f b := by
  induction l generalizing i with
  | nil => simp [listModify] at h
  | cons c rest ih =>
    cases i with
    | zero =>
      rcases List.mem_cons.mp h with h1 | h1
      · exact Or.inr ⟨c, List.mem_cons_self c rest, h1⟩
      · exact Or.inl (List.mem_cons_of_mem c h1)
    | succ j =>
      rcases List.mem_cons.mp h with h1 | h1
      · exact Or.inl (h1 ▸ List.mem_cons_self c rest)
      · rcases ih h1 with h2 | ⟨b, hb, hab⟩
        · exact Or.inl (List.mem_cons_of_mem c h2)
        · exact Or.inr ⟨b, List.mem_cons_of_mem c hb, hab⟩

/-- Rewriting the same index twice composes the rewrites. -/
theorem listModify_listModify {α : Type} (l : List α) (i : Nat) (f g : α → α) :
    listModify (listModify l i f) i g = listModify l i (fun a => g (f a)) := by
  induction l generalizing i with
  | nil => rfl
  | cons a rest ih =>
    cases i with
    | zero => rfl
    | succ j => simpa [listModify] using ih j

/-- Pointwise equal rewrites give equal lists. -/
theorem listModify_congr {α : Type} (l : List α) (i : Nat) (f g : α → α)
    (h : ∀ a, f a = g a) : listModify l i f = listModify l i g := by
  induction l generalizing i with
  | nil => rfl
  | cons a rest ih =>
    cases i with
    | zero => simp [listModify, h a]
    | succ j => simpa [listModify] using ih j

/-- A key absent from the map model is the key of no pair of the list. -/
theorem mapLookup_none_notMem {α : Type} {m : List (Nat × α)} {k : Nat}
    (h : mapLookup m k = none) : ∀ p, p ∈ m → p.1 ≠ k := by
  induction m with
  | nil => intro p hp; simp at hp
  | cons q rest ih =>
    intro p hp
    by_cases hq : q.1 = k
    · simp [mapLookup, hq] at h
    · rcases List.mem_cons.mp hp with h1 | h1
      · subst h1; exact hq
      · exact ih (by simpa [mapLookup, hq] using h) p h1

/-- After a map write the written key reads back the written value. -/
theorem mapLookup_mapInsert_self {α : Type} (m : List (Nat × α)) (k : Nat) (v : α) :
    mapLookup (mapInsert m k v) k = some v := by
  unfold mapInsert
  by_cases h : (mapLookup m k).isSome
  · simp only [h, if_true]
    induction m with
    | nil => simp [mapLookup] at h
    | cons q rest ih =>
      by_cases hq : q.1 = k
      · simp [mapLookup, hq]
      · have h' : (mapLookup rest k).isSome := by simpa [mapLookup, hq] using h
        simpa [mapLookup, hq] using ih h'
  · simp only [h, if_false]
    have hnone : mapLookup m k = none := by
      cases hm : mapLookup m k with
      | none => rfl
      | some v' => rw [hm] at h; simp at h
    induction m with
    | nil => simp [mapLookup]
    | cons q rest ih =>
      by_cases hq : q.1 = k
      · simp [mapLookup, hq] at hnone
      · have hrest : mapLookup rest k = none := by simpa [mapLookup, hq] using hnone
        simp only [List.cons_append, mapLookup, hq, if_false]
        exact ih (by simp [hrest]) hrest

/-- Every pair of a map after a write is the written pair or an old
pair. -/
theorem mem_mapInsert {α : Type} {m : List (Nat × α)} {k : Nat} {v : α}
    {p : Nat × α} (h : p ∈ mapInsert m k v) : p = (k, v) ∨ p ∈ m := by
  unfold mapInsert at h
  by_cases hs : (mapLookup m k).isSome
  · simp only [hs, if_true] at h
    rcases List.mem_map.mp h with ⟨q, hq, hpq⟩
    by_cases hqk : q.1 = k
    · left; rw [← hpq]; simp [hqk]
    · right; rw [← hpq]; simpa [hqk] using hq
  · simp only [hs, if_false] at h
    rcases List.mem_append.mp h with h1 | h1
    · exact Or.inr h1
    · exact Or.inl (by simpa using h1)

/-- A map write on a present key rewrites the list in place. -/
theorem mapInsert_of_isSome {α : Type} (m : List (Nat × α)) (k : Nat) (v : α)
    (h : (mapLookup m k).isSome) :
    mapInsert m k v = m.map (fun p => if p.1 = k then (k, v) else p) := by
  unfold mapInsert; rw [if_pos h]

/-- A map write on an absent key appends the pair. -/
theorem mapInsert_of_none {α : Type} (m : List (Nat × α)) (k : Nat) (v : α)
    (h : mapLookup m k = none) : mapInsert m k v = m ++ [(k, v)] := by
  unfold mapInsert; rw [h]; rfl

/-- A function fixing every element of a list maps it to itself. -/
theorem map_fix_eq_self {α : Type} (l : List α) (f : α → α)
    (h : ∀ a, a ∈ l → f a = a) : l.map f = l := by
  induction l with
  | nil => rfl
  | cons a rest ih =>
    rw [List.map_cons, h a (List.mem_cons_self a rest),
      ih (fun b hb => h b (List.mem_cons_of_mem a hb))]

/-- After a map write, any pair carrying the written key is the written
pair. -/
theorem mem_mapInsert_key {α : Type} {m : List (Nat × α)} {k : Nat} {v : α}
    {p : Nat × α} (hp : p ∈ mapInsert m k v) (hk : p.1 = k) : p = (k, v) := by
  unfold mapInsert at hp
  by_cases hs : (mapLookup m k).isSome
  · simp only [hs, if_true] at hp
    rcases List.mem_map.mp hp with ⟨q, _, hpq⟩
    by_cases hqk : q.1 = k
    · rw [← hpq]; simp [hqk]
    · rw [← hpq] at hk; simp [hqk] at hk
  · simp only [hs, if_false] at hp
    have hnone : mapLookup m k = none := by
      cases hm : mapLookup m k with
      | none => rfl
      | some v' => rw [hm] at hs; simp at hs
    rcases List.mem_append.mp hp with h2 | h2
    · exact absurd hk (mapLookup_none_notMem hnone p h2)
    · simpa using h2

/-- Writing the same key-value pair twice is the same as writing it
once: duplicate certificate writes are no-ops. -/
theorem mapInsert_idem {α : Type} (m : List (Nat × α)) (k : Nat) (v : α) :
    mapInsert (mapInsert m k v) k v = mapInsert m k v := by
  have hsome : (mapLookup (mapInsert m k v) k).isSome := by
    rw [mapLookup_mapInsert_self]; rfl
  rw [mapInsert_of_isSome _ _ _ hsome]
  apply map_fix_eq_self
  intro p hp
  by_cases hk : p.1 = k
  · rw [if_pos hk, mem_mapInsert_key hp hk]
  · rw [if_neg hk]

/-- The round-trip law of the symbolic signature model: a signature made
with the key the directory stores for a server verifies under that
server's directory entry. -/
theorem verifyK_signWith (publicKeys : List (Nat × Nat)) (server : Nat)
    (msgDigest : Digest) (pk : Nat) (h : mapLookup publicKeys server = some pk) :
    verifyK publicKeys server msgDigest (signWith pk msgDigest) = some true := by
  simp [verifyK, h, signWith]

/-- Complete case analysis of a Commit invocation that returns: the
reply always carries the incoming digest and the replica's own
signature over it, and the invocation either accepted (valid signature,
slot in range, success, certificate write at executeSeqNum) or rejected
(failure, state unchanged, one of the two conditions false). -/
theorem Commit_some_cases (xp : XPaxos) (msg : Message) (xp' : XPaxos)
    (reply : CommitReply) (h : Commit xp msg = some (xp', reply)) :
    reply.MsgDigest = msg.MsgDigest ∧ reply.Signature = xp.sign msg.MsgDigest ∧
    ((xp.verify msg.ServerId msg.MsgDigest msg.Signature = some true ∧
      xp.executeSeqNum < xp.commitLog.length ∧ reply.Success = true ∧
      xp' = { xp with
              commitLog := listModify xp.commitLog xp.executeSeqNum (certInsert msg) }) ∨
     (reply.Success = false ∧ xp' = xp ∧
      ¬ (xp.verify msg.ServerId msg.MsgDigest msg.Signature = some true ∧
         xp.executeSeqNum < xp.commitLog.length))) := by
  cases hv : xp.verify msg.ServerId msg.MsgDigest msg.Signature with
  | none =>
    simp only [Commit, hv] at h
    exact Option.noConfusion h
  | some b =>
    cases b with
    | true =>
      by_cases hlt : xp.executeSeqNum < xp.commitLog.length
      · simp only [Commit, hv, hlt, if_true, Option.some.injEq, Prod.mk.injEq] at h
        obtain ⟨hxp, hr⟩ := h
        refine ⟨?_, ?_, Or.inl ⟨rfl, hlt, ?_, hxp.symm⟩⟩ <;> rw [← hr]
      · simp only [Commit, hv, hlt, if_false, Option.some.injEq, Prod.mk.injEq] at h
        obtain ⟨hxp, hr⟩ := h
        refine ⟨?_, ?_, Or.inr ⟨?_, hxp.symm, fun hc => hlt hc.2⟩⟩ <;> rw [← hr]
    | false =>
      simp only [Commit, hv, Option.some.injEq, Prod.mk.injEq] at h
      obtain ⟨hxp, hr⟩ := h
      refine ⟨?_, ?_, Or.inr ⟨?_, hxp.symm, fun hc => ?_⟩⟩
      · rw [← hr]
      · rw [← hr]
      · rw [← hr]
      · exact absurd hc.1 (by simp)

/-- Complete case analysis of a Prepare invocation that returns: the
reply always carries the follower's own digest of the request and its
own signature over that digest, and the invocation either accepted
(running prepareBody and incrementing executeSeqNum) or rejected with
the state unchanged. -/
theorem Prepare_some_cases (xp : XPaxos) (prepareEntry : PrepareLogEntry) (xp' : XPaxos)
    (reply : PrepareReply) (h : Prepare xp prepareEntry = some (xp', reply)) :
    reply.MsgDigest = digest prepareEntry.Request ∧
    reply.Signature = xp.sign (digest prepareEntry.Request) ∧
    ((prepareAccepts xp prepareEntry ∧ reply.Success = true ∧
      xp' = { prepareBody xp prepareEntry with
              executeSeqNum := (prepareBody xp prepareEntry).executeSeqNum + 1 }) ∨
     (¬ prepareAccepts xp prepareEntry ∧ reply.Success = false ∧ xp' = xp)) := by
  by_cases hc : prepareEntry.Msg0.PrepareSeqNum = xp.prepareSeqNum + 1 ∧
      prepareEntry.Msg0.MsgDigest = digest prepareEntry.Request
  · cases hv : xp.verify prepareEntry.Msg0.ServerId (digest prepareEntry.Request)
        prepareEntry.Msg0.Signature with
    | none =>
      simp only [Prepare, hc, and_self, if_true, hv] at h
      exact Option.noConfusion h
    | some b =>
      cases b with
      | false =>
        simp only [Prepare, hc, and_self, if_true, hv, Option.some.injEq,
          Prod.mk.injEq] at h
        obtain ⟨hxp, hr⟩ := h
        refine ⟨?_, ?_, Or.inr ⟨fun hacc => ?_, ?_, hxp.symm⟩⟩
        · rw [← hr]
        · rw [← hr]
        · have hv2 := hacc.2.2
          rw [hv] at hv2
          exact absurd hv2 (by simp)
        · rw [← hr]
      | true =>
        by_cases hlt : (prepareBody xp prepareEntry).executeSeqNum <
            (prepareBody xp prepareEntry).commitLog.length
        · simp only [Prepare, hc, and_self, if_true, hv, hlt, Option.some.injEq,
            Prod.mk.injEq] at h
          obtain ⟨hxp, hr⟩ := h
          refine ⟨?_, ?_, Or.inl ⟨⟨hc.1, hc.2, hv⟩, ?_, hxp.symm⟩⟩ <;> rw [← hr]
        · simp only [Prepare, hc, and_self, if_true, hv, hlt, if_false] at h
          exact Option.noConfusion h
  · have hacc : ¬ prepareAccepts xp prepareEntry := fun hacc => hc ⟨hacc.1, hacc.2.1⟩
    simp only [Prepare, hc, if_false, Option.some.injEq, Prod.mk.injEq] at h
    obtain ⟨hxp, hr⟩ := h
    refine ⟨?_, ?_, Or.inr ⟨hacc, ?_, hxp.symm⟩⟩ <;> rw [← hr]

/-- Every small step leaves the identity fields of the replica (id,
view, keys, synchronous group) unchanged. -/
theorem Step_frame {n n' : Node} (hs : Step n n') :
    n'.xp.id = n.xp.id ∧ n'.xp.view = n.xp.view ∧
    n'.xp.privateKey = n.xp.privateKey ∧ n'.xp.publicKeys = n.xp.publicKeys ∧
    n'.xp.synchronousGroup = n.xp.synchronousGroup := by
  cases hs with
  | replicate request h => exact ⟨rfl, rfl, rfl, rfl, rfl⟩
  | replicateDone h => exact ⟨rfl, rfl, rfl, rfl, rfl⟩
  | prepare prepareEntry h => exact ⟨rfl, rfl, rfl, rfl, rfl⟩
  | prepareDone slot h hslot hbarrier => exact ⟨rfl, rfl, rfl, rfl, rfl⟩
  | commit msg xp' reply h =>
    rcases Commit_some_cases _ msg xp' reply h with ⟨_, _, hcase⟩
    rcases hcase with ⟨_, _, _, hxp⟩ | ⟨_, hxp, _⟩ <;> rw [hxp] <;>
      exact ⟨rfl, rfl, rfl, rfl, rfl⟩

/-- Claim C2: the Prepare handler accepts iff all three conditions hold
(next-in-sequence prepare number, digest matching the follower's own
hashing of the request, leader signature valid under the claimed
sender's public key), appending to prepareLog and incrementing
prepareSeqNum exactly on acceptance, and in every case the reply
carries the follower's own digest of the request and its own signature
over that digest. -/
theorem xpaxos_C2_prepare_accept_iff (xp : XPaxos) (prepareEntry : PrepareLogEntry)
    (xp' : XPaxos) (reply : PrepareReply)
    (h : Prepare xp prepareEntry = some (xp', reply)) :
    reply.MsgDigest = digest prepareEntry.Request ∧
    reply.Signature = xp.sign (digest prepareEntry.Request) ∧
    (reply.Success = true ↔ prepareAccepts xp prepareEntry) ∧
    (reply.Success = true →
      xp'.prepareSeqNum = xp.prepareSeqNum + 1 ∧
      xp'.prepareLog = xp.prepareLog ++ [prepareEntry]) ∧
    (reply.Success = false → xp' = xp) := by
  rcases Prepare_some_cases xp prepareEntry xp' reply h with ⟨hd, hsig, hcase⟩
  rcases hcase with ⟨hacc, hsucc, hxp⟩ | ⟨hacc, hsucc, hxp⟩
  · refine ⟨hd, hsig, ⟨fun _ => hacc, fun _ => hsucc⟩, fun _ => ?_, fun hf => ?_⟩
    · rw [hxp]
      exact ⟨rfl, rfl⟩
    · rw [hsucc] at hf
      exact Bool.noConfusion hf
  · refine ⟨hd, hsig, ⟨fun ht => ?_, fun hca => absurd hca hacc⟩, fun ht => ?_,
      fun _ => hxp⟩
    · rw [hsucc] at ht
      exact Bool.noConfusion ht
    · rw [hsucc] at ht
      exact Bool.noConfusion ht

/-- Witness for claim C2 at a concrete accepting input: follower 2 with
empty logs accepts the leader's first prepare entry. -/
theorem xpaxos_C2_witness :
    replyW2.MsgDigest = digest peW2.Request ∧
    replyW2.Signature = xpW2.sign (digest peW2.Request) ∧
    (replyW2.Success = true ↔ prepareAccepts xpW2 peW2) ∧
    (replyW2.Success = true →
      xpW2a.prepareSeqNum = xpW2.prepareSeqNum + 1 ∧
      xpW2a.prepareLog = xpW2.prepareLog ++ [peW2]) ∧
    (replyW2.Success = false → xpW2a = xpW2) :=
  xpaxos_C2_prepare_accept_iff xpW2 peW2 xpW2a replyW2 (by decide)

/-- Claim C3: the Commit handler succeeds iff the message signature
verifies under msg.ServerId's directory key and executeSeqNum is below
len(commitLog); on success its only state change is the certificate
write at slot executeSeqNum (the recipient's execution frontier) under
key msg.ServerId; on failure the state is unchanged. -/
theorem xpaxos_C3_commit_success_iff (xp : XPaxos) (msg : Message) (xp' : XPaxos)
    (reply : CommitReply) (h : Commit xp msg = some (xp', reply)) :
    (reply.Success = true ↔
      (xp.verify msg.ServerId msg.MsgDigest msg.Signature = some true ∧
       xp.executeSeqNum < xp.commitLog.length)) ∧
    (reply.Success = true →
      xp' = { xp with
              commitLog := listModify xp.commitLog xp.executeSeqNum (certInsert msg) }) ∧
    (reply.Success = false → xp' = xp) := by
  rcases Commit_some_cases xp msg xp' reply h with ⟨_, _, hcase⟩
  rcases hcase with ⟨hv, hlt, hsucc, hxp⟩ | ⟨hsucc, hxp, hneg⟩
  · refine ⟨⟨fun _ => ⟨hv, hlt⟩, fun _ => hsucc⟩, fun _ => hxp, fun hf => ?_⟩
    rw [hsucc] at hf
    exact Bool.noConfusion hf
  · refine ⟨⟨fun ht => ?_, fun hc => absurd hc hneg⟩, fun ht => ?_, fun _ => hxp⟩
    · rw [hsucc] at ht
      exact Bool.noConfusion ht
    · rw [hsucc] at ht
      exact Bool.noConfusion ht

/-- Witness for claim C3 at a concrete accepting input: replica 2
stores a valid COMMIT from replica 1 into its frontier slot. -/
theorem xpaxos_C3_witness :
    (replyC.Success = true ↔
      (xpC.verify msgC.ServerId msgC.MsgDigest msgC.Signature = some true ∧
       xpC.executeSeqNum < xpC.commitLog.length)) ∧
    (replyC.Success = true →
      xpCa = { xpC with
               commitLog := listModify xpC.commitLog xpC.executeSeqNum (certInsert msgC) }) ∧
    (replyC.Success = false → xpCa = xpC) :=
  xpaxos_C3_commit_success_iff xpC msgC xpCa replyC (by decide)

/-- Claim C4: on a replica that is not the leader (id different from
view), Replicate replies isLeader = false, success = false and leaves
the whole replica state unchanged. -/
theorem xpaxos_C4_nonleader_noop (xp : XPaxos) (request : ClientRequest)
    (h : xp.id ≠ xp.view) :
    Replicate xp request = (xp, { IsLeader := false, Success := false }) := by
  unfold Replicate
  rw [if_neg h]

/-- Witness for claim C4 at a concrete input: replica 2 in view 1
rejects a client request without touching its state. -/
theorem xpaxos_C4_witness :
    Replicate xpC reqW = (xpC, { IsLeader := false, Success := false }) :=
  xpaxos_C4_nonleader_noop xpC reqW (by decide)

/-- Appending a next-in-sequence entry preserves dense numbering of the
prepare log. -/
theorem dense_snoc (xp : XPaxos) (hd : dense xp) (entry : PrepareLogEntry)
    (he : entry.Msg0.PrepareSeqNum = xp.prepareSeqNum + 1) :
    xp.prepareSeqNum + 1 = (xp.prepareLog ++ [entry]).length ∧
    ∀ k e, (xp.prepareLog ++ [entry]).get? k = some e →
      e.Msg0.PrepareSeqNum = k + 1 := by
  constructor
  · simp [hd.1]
  · intro k e hk
    rw [get?_snoc] at hk
    by_cases hkl : k = xp.prepareLog.length
    · rw [if_pos hkl] at hk
      injection hk with h1
      rw [← h1, he, hd.1, hkl]
    · rw [if_neg hkl] at hk
      exact hd.2 k e hk

/-- Claim C5: every handler invocation (Replicate, Prepare, Commit)
preserves dense numbering of the prepare log together with
prepareSeqNum = len(prepareLog). -/
theorem xpaxos_C5_dense_preserved (xp : XPaxos) (hd : dense xp) :
    (∀ request, dense (Replicate xp request).1) ∧
    (∀ prepareEntry xp' reply, Prepare xp prepareEntry = some (xp', reply) → dense xp') ∧
    (∀ msg xp' reply, Commit xp msg = some (xp', reply) → dense xp') := by
  refine ⟨fun request => ?_, fun prepareEntry xp' reply h => ?_, fun msg xp' reply h => ?_⟩
  · unfold Replicate
    by_cases hl : xp.id = xp.view
    · rw [if_pos hl]
      exact dense_snoc xp hd _ rfl
    · rw [if_neg hl]
      exact hd
  · rcases Prepare_some_cases xp prepareEntry xp' reply h with ⟨_, _, hcase⟩
    rcases hcase with ⟨hacc, _, hxp⟩ | ⟨_, _, hxp⟩
    · rw [hxp]
      exact dense_snoc xp hd prepareEntry hacc.1
    · rw [hxp]
      exact hd
  · rcases Commit_some_cases xp msg xp' reply h with ⟨_, _, hcase⟩
    rcases hcase with ⟨_, _, _, hxp⟩ | ⟨_, hxp, _⟩
    · rw [hxp]
      exact hd
    · rw [hxp]
      exact hd

/-- Witness for claim C5 at a concrete input: the fresh leader keeps
dense numbering across its first Replicate. -/
theorem xpaxos_C5_witness : dense (Replicate (Make 4 1 5 pksW) reqW).1 :=
  (xpaxos_C5_dense_preserved (Make 4 1 5 pksW)
    ⟨rfl, by
      intro k e hk
      rw [show (Make 4 1 5 pksW).prepareLog = [] from rfl, get?_nil_eq] at hk
      exact Option.noConfusion hk⟩).1 reqW

/-- Every pair of commit-log entries reachable through prepareBody is an
old entry or the freshly seeded certificate entry. -/
theorem prepareBody_commitLog_mem {xp : XPaxos} {prepareEntry : PrepareLogEntry}
    {entry : CommitLogEntry} (h : entry ∈ (prepareBody xp prepareEntry).commitLog) :
    entry ∈ xp.commitLog ∨
    entry = { Request := prepareEntry.Request
              Msg0 := mapInsert (mapInsert [] xp.view prepareEntry.Msg0) xp.id
                (commitMsg xp prepareEntry) } := by
  by_cases hc : xp.commitLog.length ≤ xp.executeSeqNum
  · simp only [prepareBody, hc, if_true] at h
    rcases List.mem_append.mp h with h1 | h1
    · exact Or.inl h1
    · exact Or.inr (by simpa using h1)
  · simp only [prepareBody, hc, if_false] at h
    exact Or.inl h

/-- The commit log never outgrows the prepare log along any reachable
execution. -/
theorem xpaxos_C6_amended_le (n : Node) (h : Reachable n) :
    n.xp.commitLog.length ≤ n.xp.prepareLog.length := by
  induction h with
  | init numReplicas id privateKey publicKeys => exact Nat.le_refl 0
  | step hr hs ih =>
    cases hs with
    | replicate request hl =>
      simp only [replicateBody, List.length_append, List.length_cons, List.length_nil]
      omega
    | replicateDone hp => exact ih
    | prepare prepareEntry hacc =>
      simp only [prepareBody]
      split
      · simp only [List.length_append, List.length_cons, List.length_nil]
        omega
      · simp only [List.length_append, List.length_cons, List.length_nil]
        omega
    | prepareDone slot hp hslot hbarrier => exact ih
    | commit msg xp' reply hcm =>
      rcases Commit_some_cases _ msg xp' reply hcm with ⟨_, _, hcase⟩
      rcases hcase with ⟨_, _, _, hxp⟩ | ⟨_, hxp, _⟩
      · show xp'.commitLog.length ≤ xp'.prepareLog.length
        rw [hxp]
        simp only [listModify_length]
        exact ih
      · show xp'.commitLog.length ≤ xp'.prepareLog.length
        rw [hxp]
        exact ih

/-- Claim C6, counterexample: in the initial state both logs are empty,
so len(commitLog) is greater than or equal to len(prepareLog) in a
reachable state, contradicting the claim that this is never true. -/
theorem xpaxos_C6_counterexample :
    Reachable nodeB ∧ nodeB.xp.commitLog.length ≥ nodeB.xp.prepareLog.length :=
  ⟨Reachable.init 3 1 9 [], by decide⟩

/-- Witness for the amended claim C6 at a concrete input: a freshly made
replica satisfies len(commitLog) less than or equal to
len(prepareLog). -/
theorem xpaxos_C6_witness :
    (Node.mk (Make 4 2 6 pksW) 0 0).xp.commitLog.length ≤
      (Node.mk (Make 4 2 6 pksW) 0 0).xp.prepareLog.length :=
  xpaxos_C6_amended_le (Node.mk (Make 4 2 6 pksW) 0 0) (Reachable.init 4 2 6 pksW)

/-- Amended claim C1: along any reachable execution of a replica whose
own public key is correctly registered in the directory, every entry
stored in any commit-log certificate is signature-valid under its own
ServerId's directory key.  (The coverage half of the original claim is
false: see the counterexample.) -/
theorem xpaxos_C1_amended_cert_sigs (n : Node) (h : Reachable n)
    (hk : mapLookup n.xp.publicKeys n.xp.id = some n.xp.privateKey) :
    certSigsValid n.xp := by
  revert hk
  induction h with
  | init numReplicas id privateKey publicKeys =>
    intro hk entry he p hp
    simp [Make] at he
  | step hr hs ih =>
    intro hk
    obtain ⟨hid, _, hpriv, hpks, _⟩ := Step_frame hs
    rw [hid, hpks, hpriv] at hk
    have ihv := ih hk
    cases hs with
    | replicate request hl =>
      intro entry he p hp
      rcases List.mem_append.mp he with h1 | h1
      · exact ihv entry h1 p hp
      · rw [List.mem_singleton] at h1
        rw [h1] at hp
        dsimp only at hp
        rcases mem_mapInsert hp with h2 | h2
        · rw [h2]
          exact verifyK_signWith _ _ _ _ hk
        · simp at h2
    | replicateDone hp => exact ihv
    | prepare prepareEntry hacc =>
      intro entry he p hp
      rcases prepareBody_commitLog_mem he with h1 | h1
      · exact ihv entry h1 p hp
      · rw [h1] at hp
        rcases mem_mapInsert hp with h2 | h2
        · rw [h2]
          exact verifyK_signWith _ _ _ _ hk
        · rcases mem_mapInsert h2 with h3 | h3
          · rw [h3]
            have hv := hacc.2.2
            rw [← hacc.2.1] at hv
            exact hv
          · simp at h3
    | prepareDone slot hp hslot hbarrier => exact ihv
    | commit msg xp' reply hcm =>
      rcases Commit_some_cases _ msg xp' reply hcm with ⟨_, _, hcase⟩
      rcases hcase with ⟨hv, _, _, hxp⟩ | ⟨_, hxp, _⟩
      · subst hxp
        intro entry he p hp
        rcases mem_listModify he with h1 | ⟨b, hb, hab⟩
        · exact ihv entry h1 p hp
        · rw [hab] at hp
          rcases mem_mapInsert hp with h2 | h2
          · rw [h2]
            exact hv
          · exact ihv b hb p h2
      · subst hxp
        exact ihv

/-- Witness for the amended claim C1 at a concrete input: the fresh
four-slot leader with its own key registered. -/
theorem xpaxos_C1_witness : certSigsValid (Make 4 1 5 pksW) :=
  xpaxos_C1_amended_cert_sigs (Node.mk (Make 4 1 5 pksW) 0 0)
    (Reachable.init 4 1 5 pksW) (by decide)

/-- Claim C1, counterexample: after one Replicate invocation on a fresh
four-slot leader (its body, then its completed acknowledgement wait),
executeSeqNum is 1 but the certificate of the executed slot 0 holds
only the leader's own entry and lacks member 2 of the synchronous group
{1, 2, 3}; the leader's Replicate incremented executeSeqNum without any
certificate check. -/
theorem xpaxos_C1_counterexample : Reachable nodeA2 ∧ ¬ certComplete nodeA2.xp := by
  constructor
  · exact Reachable.step
      (Reachable.step (Reachable.init 4 1 5 pksW) (Step.replicate nodeA0 reqW rfl))
      (Step.replicateDone nodeA1 (by decide))
  · intro hcert
    have h1 := hcert 0 slotA (by decide) (by decide)
    have h2 := h1.1 2 (by decide)
    exact absurd h2 (by decide)

/-- Claim C7: the sign/verify round-trip law: for any replica whose
private key's public counterpart is registered in the shared directory
under index i, any replica using that directory verifies its signature
over any request digest. -/
theorem xpaxos_C7_sign_verify_roundtrip (xp signer : XPaxos) (i : Nat)
    (request : ClientRequest)
    (h : mapLookup xp.publicKeys i = some signer.privateKey) :
    xp.verify i (digest request) (signer.sign (digest request)) = some true :=
  verifyK_signWith xp.publicKeys i (digest request) signer.privateKey h

/-- Witness for claim C7 at a concrete input: the fresh leader verifies
its own signature over a concrete request. -/
theorem xpaxos_C7_witness :
    (Make 4 1 5 pksW).verify 1 (digest reqW)
      ((Make 4 1 5 pksW).sign (digest reqW)) = some true :=
  xpaxos_C7_sign_verify_roundtrip (Make 4 1 5 pksW) (Make 4 1 5 pksW) 1 reqW (by decide)

/-- A Commit invocation with a valid signature and an in-range frontier
returns exactly the certificate-write state and a success reply. -/
theorem Commit_accept_eq (xp : XPaxos) (msg : Message)
    (hv : xp.verify msg.ServerId msg.MsgDigest msg.Signature = some true)
    (hlt : xp.executeSeqNum < xp.commitLog.length) :
    Commit xp msg =
      some ({ xp with
              commitLog := listModify xp.commitLog xp.executeSeqNum (certInsert msg) },
            { MsgDigest := msg.MsgDigest, Signature := xp.sign msg.MsgDigest,
              Success := true }) := by
  simp only [Commit, hv, hlt, if_true]

/-- Claim C8: a Commit accepted from a given state, delivered a second
time with no operation in between, succeeds again with the identical
reply, the duplicate certificate write is a no-op, and the state after
the second delivery equals the state after the single delivery. -/
theorem xpaxos_C8_commit_idempotent (xp : XPaxos) (msg : Message) (xp1 : XPaxos)
    (reply1 : CommitReply) (h1 : Commit xp msg = some (xp1, reply1))
    (hs : reply1.Success = true) :
    Commit xp1 msg = some (xp1, reply1) := by
  rcases Commit_some_cases xp msg xp1 reply1 h1 with ⟨hd, hsig, hcase⟩
  rcases hcase with ⟨hv, hlt, _, hxp⟩ | ⟨hf, _, _⟩
  · have hreply : reply1 =
        { MsgDigest := msg.MsgDigest, Signature := xp.sign msg.MsgDigest,
          Success := true } := by
      cases reply1
      simp only [CommitReply.mk.injEq]
      exact ⟨hd, hsig, hs⟩
    have hpk : xp1.publicKeys = xp.publicKeys := by rw [hxp]
    have hpriv : xp1.privateKey = xp.privateKey := by rw [hxp]
    have hexec : xp1.executeSeqNum = xp.executeSeqNum := by rw [hxp]
    have hcl : xp1.commitLog = listModify xp.commitLog xp.executeSeqNum (certInsert msg) := by
      rw [hxp]
    have hv1 : xp1.verify msg.ServerId msg.MsgDigest msg.Signature = some true := by
      unfold XPaxos.verify
      rw [hpk]
      exact hv
    have hlt1 : xp1.executeSeqNum < xp1.commitLog.length := by
      rw [hexec, hcl, listModify_length]
      exact hlt
    rw [Commit_accept_eq xp1 msg hv1 hlt1]
    have hff : ∀ entry, certInsert msg (certInsert msg entry) = certInsert msg entry := by
      intro entry
      simp [certInsert, mapInsert_idem]
    have hcl2 : listModify xp1.commitLog xp1.executeSeqNum (certInsert msg) =
        xp1.commitLog := by
      rw [hcl, hexec, listModify_listModify]
      exact listModify_congr _ _ _ (certInsert msg) hff
    have hsign : xp1.sign msg.MsgDigest = xp.sign msg.MsgDigest := by
      unfold XPaxos.sign
      rw [hpriv]
    rw [hcl2, hreply, hsign]
  · rw [hf] at hs
    exact Bool.noConfusion hs

/-- Witness for claim C8 at a concrete input: the duplicate delivery of
a valid COMMIT to replica 2 returns the same reply and state. -/
theorem xpaxos_C8_witness : Commit xpCa msgC = some (xpCa, replyC) :=
  xpaxos_C8_commit_idempotent xpC msgC xpCa replyC (by decide) rfl

/-- Claim C9, counterexample: verification against a serverId with no
entry in the public-key directory does not return a boolean at all: the
Go code dereferences a nil public key and faults (modelled by `none`),
so verify is not total. -/
theorem xpaxos_C9_counterexample :
    (xpC9.verify 2 (digest reqW) (signWith 5 (digest reqW))).isSome = false := by decide

/-- Amended claim C9: whenever the directory has an entry for the
claimed server, verify totally returns a boolean: true exactly on the
genuine signature under that entry, and false (rather than an error) on
any other signature; for a serverId with no directory entry it faults
instead of returning false. -/
theorem xpaxos_C9_amended_verify_total (xp : XPaxos) (server pk : Nat)
    (msgDigest : Digest) (signature : Sig)
    (h : mapLookup xp.publicKeys server = some pk) :
    (xp.verify server msgDigest signature).isSome = true ∧
    (xp.verify server msgDigest signature = some true ↔
      signature = signWith pk msgDigest) := by
  unfold XPaxos.verify verifyK
  rw [h]
  dsimp only
  constructor
  · rfl
  · constructor
    · intro ht
      have hP := of_decide_eq_true (Option.some.inj ht)
      cases signature
      obtain ⟨h1, h2⟩ := hP
      dsimp only at h1 h2
      rw [signWith, h1, h2]
    · intro heq
      rw [heq]
      simp [signWith]

/-- Witness for the amended claim C9 at a concrete input: an invalid
signature against a present directory entry yields a boolean (false),
not a fault. -/
theorem xpaxos_C9_witness :
    (xpC9.verify 1 (digest reqW) (signWith 9 (digest reqW))).isSome = true ∧
    (xpC9.verify 1 (digest reqW) (signWith 9 (digest reqW)) = some true ↔
      signWith 9 (digest reqW) = signWith 5 (digest reqW)) :=
  xpaxos_C9_amended_verify_total xpC9 1 5 (digest reqW) (signWith 9 (digest reqW))
    (by decide)

/-- Claim C10 (frame): Commit leaves id, view, prepareSeqNum,
executeSeqNum, prepareLog and synchronousGroup unchanged, never appends
to or truncates commitLog, leaves every slot other than the one at
index executeSeqNum untouched, and at that slot changes at most the
certificate map. -/
theorem xpaxos_C10_commit_frame (xp : XPaxos) (msg : Message) (xp' : XPaxos)
    (reply : CommitReply) (h : Commit xp msg = some (xp', reply)) :
    xp'.id = xp.id ∧ xp'.view = xp.view ∧ xp'.prepareSeqNum = xp.prepareSeqNum ∧
    xp'.executeSeqNum = xp.executeSeqNum ∧ xp'.prepareLog = xp.prepareLog ∧
    xp'.synchronousGroup = xp.synchronousGroup ∧
    xp'.commitLog.length = xp.commitLog.length ∧
    (∀ j, j ≠ xp.executeSeqNum → xp'.commitLog.get? j = xp.commitLog.get? j) ∧
    (∀ entry, xp.commitLog.get? xp.executeSeqNum = some entry →
      xp'.commitLog.get? xp.executeSeqNum = some entry ∨
      xp'.commitLog.get? xp.executeSeqNum = some (certInsert msg entry)) := by
  rcases Commit_some_cases xp msg xp' reply h with ⟨_, _, hcase⟩
  rcases hcase with ⟨_, _, _, hxp⟩ | ⟨_, hxp, _⟩
  · subst hxp
    refine ⟨rfl, rfl, rfl, rfl, rfl, rfl, ?_, ?_, ?_⟩
    · dsimp only
      exact listModify_length _ _ _
    · intro j hj
      dsimp only
      exact listModify_get?_other _ _ _ _ hj
    · intro entry hentry
      right
      dsimp only
      rw [listModify_get?_self, hentry]
      rfl
  · subst hxp
    exact ⟨rfl, rfl, rfl, rfl, rfl, rfl, rfl, fun j hj => rfl,
      fun entry hentry => Or.inl hentry⟩

/-- Witness for claim C10 at a concrete input: the frame of the
concrete accepted Commit of replica 2. -/
theorem xpaxos_C10_witness :
    xpCa.id = xpC.id ∧ xpCa.view = xpC.view ∧ xpCa.prepareSeqNum = xpC.prepareSeqNum ∧
    xpCa.executeSeqNum = xpC.executeSeqNum ∧ xpCa.prepareLog = xpC.prepareLog ∧
    xpCa.synchronousGroup = xpC.synchronousGroup ∧
    xpCa.commitLog.length = xpC.commitLog.length ∧
    (∀ j, j ≠ xpC.executeSeqNum → xpCa.commitLog.get? j = xpC.commitLog.get? j) ∧
    (∀ entry, xpC.commitLog.get? xpC.executeSeqNum = some entry →
      xpCa.commitLog.get? xpC.executeSeqNum = some entry ∨
      xpCa.commitLog.get? xpC.executeSeqNum = some (certInsert msgC entry)) :=
  xpaxos_C10_commit_frame xpC msgC xpCa replyC (by decide)
